import Mathlib

/-!
Verification of the single-server FIFO discrete-event simulation
(repository `Simulation-Lab-Code`).  The engine of `src/Final.py` is
embedded as a state-transition function `step` on `SimState`; the
variants `src/z___deepseek.py` and `src/z___Perplexity.py`, which differ
in the event list and in the statistics counters, are embedded as
`dStep` on `DState` and `stepP` on `PState`.  Durations drawn from the
random generator are modelled as a stream `rng : ℕ → ℚ` consumed at an
explicit index, and the `math.inf` sentinel for "no pending departure"
is modelled as `none : Option ℚ`.
-/

/-- Kind of a simulation event: customer arrival or customer departure. -/
inductive EKind : Type
  | arrival
  | departure
deriving DecidableEq, Repr

/-- State of the `Final.py` engine: module-level variables `t`, `queue`,
`server_busy`, `next_arrival`, `next_departure`, `num_arrivals`,
`num_served`, `delays`, `area_Q`, `last_event_time`, plus the index of
the next unread value of the duration stream. -/
structure SimState : Type where
  t : ℚ
  queue : List ℚ
  server_busy : Bool
  next_arrival : ℚ
  next_departure : Option ℚ
  num_arrivals : ℕ
  num_served : ℕ
  delays : List ℚ
  area_Q : ℚ
  last_event_time : ℚ
  rng_i : ℕ
deriving DecidableEq, Repr

/-- Line 96 of `Final.py`: the arrival is selected iff
`next_arrival <= next_departure`, where a missing departure (`math.inf`)
always loses the comparison against the finite arrival time. -/
def arrivalNext (s : SimState) : Bool :=
  match s.next_departure with
  | none => true
  | some d => decide (s.next_arrival ≤ d)

/-- Lines 96-97 of `Final.py`: the dispatched event and its time. -/
def selectNext (s : SimState) : EKind × ℚ :=
  if arrivalNext s then (EKind.arrival, s.next_arrival)
  else (EKind.departure, s.next_departure.getD 0)

/-- Lines 24-38 of `Final.py`: clock 0, empty queue, idle server, first
arrival drawn from the stream, no scheduled departure, zero statistics. -/
def initState (rng : ℕ → ℚ) : SimState :=
  { t := 0
    queue := []
    server_busy := false
    next_arrival := rng 0
    next_departure := none
    num_arrivals := 0
    num_served := 0
    delays := []
    area_Q := 0
    last_event_time := 0
    rng_i := 1 }

/-- One iteration of the main DES loop of `Final.py` (lines 96-124):
select the next event, accumulate `area_Q` with the pre-event queue
length over the elapsed interval, advance the clock, then dispatch the
arrival or departure handler, drawing fresh durations from the stream. -/
def step (rng : ℕ → ℚ) (s : SimState) : SimState :=
  if arrivalNext s then
    if s.server_busy then
      { s with
        area_Q := s.area_Q + (s.queue.length : ℚ) * (s.next_arrival - s.last_event_time)
        t := s.next_arrival
        last_event_time := s.next_arrival
        num_arrivals := s.num_arrivals + 1
        queue := s.queue ++ [s.next_arrival]
        next_arrival := s.next_arrival + rng s.rng_i
        rng_i := s.rng_i + 1 }
    else
      { s with
        area_Q := s.area_Q + (s.queue.length : ℚ) * (s.next_arrival - s.last_event_time)
        t := s.next_arrival
        last_event_time := s.next_arrival
        num_arrivals := s.num_arrivals + 1
        server_busy := true
        delays := s.delays ++ [0]
        next_departure := some (s.next_arrival + rng (s.rng_i + 1))
        next_arrival := s.next_arrival + rng s.rng_i
        rng_i := s.rng_i + 2 }
  else
    match s.queue with
    | [] =>
      { s with
        area_Q := s.area_Q + (s.queue.length : ℚ) *
          (s.next_departure.getD 0 - s.last_event_time)
        t := s.next_departure.getD 0
        last_event_time := s.next_departure.getD 0
        num_served := s.num_served + 1
        server_busy := false
        next_departure := none
        rng_i := s.rng_i + 1 }
    | a :: rest =>
      { s with
        area_Q := s.area_Q + (s.queue.length : ℚ) *
          (s.next_departure.getD 0 - s.last_event_time)
        t := s.next_departure.getD 0
        last_event_time := s.next_departure.getD 0
        num_served := s.num_served + 1
        queue := rest
        delays := s.delays ++ [s.next_departure.getD 0 - a]
        next_departure := some (s.next_departure.getD 0 + rng s.rng_i)
        rng_i := s.rng_i + 1 }

/-- The state after `n` iterations of the `Final.py` loop. -/
def run (rng : ℕ → ℚ) : ℕ → SimState
  | 0 => initState rng
  | n + 1 => step rng (run rng n)

/-- Line 70 of `Final.py`: `np.mean(delays) if delays else 0.0`. -/
def avgWait (s : SimState) : ℚ :=
  if s.delays = [] then 0 else s.delays.sum / (s.delays.length : ℚ)

/-- Line 77 of `Final.py`: `area_Q/t if t>0 else 0.0`. -/
def timeAvgQ (s : SimState) : ℚ :=
  if 0 < s.t then s.area_Q / s.t else 0

/-- The sequence of `(event time, event kind)` pairs dispatched during
the first `n` iterations of the `Final.py` loop; the clock after each
dispatch equals the recorded event time. -/
def eventTrace (rng : ℕ → ℚ) : ℕ → List (ℚ × EKind)
  | 0 => []
  | n + 1 => eventTrace rng n ++
      [((selectNext (run rng n)).2, (selectNext (run rng n)).1)]

/-- Exact time integral of the step function `Q(t)` reconstructed from
the event history of the first `n` events: between consecutive event
times the wait-line length is constant and equal to its value just
after the earlier event, so the integral is the sum of
`(length after event k) * (time of event k+1 - time of event k)`;
equivalently, each term uses the wait-line length in force during the
just-elapsed interval, i.e. the pre-event length of the later event. -/
def integralQ (rng : ℕ → ℚ) : ℕ → ℚ
  | 0 => 0
  | n + 1 => integralQ rng n +
      ((run rng n).queue.length : ℚ) * ((run rng (n + 1)).t - (run rng n).t)

/-- State of the `z___deepseek.py` engine
(`SingleServerQueueSimulation`): simulation clock, server status
(`true` for `BUSY`), FIFO queue of arrival times, the event list of
`(kind, time)` pairs, the statistics fields, and the index of the next
unread value of the duration stream. -/
structure DState : Type where
  clock : ℚ
  server_status : Bool
  queue : List ℚ
  event_list : List (EKind × ℚ)
  total_arrivals : ℕ
  total_served : ℕ
  delays : List ℚ
  total_delay : ℚ
  Q_area : ℚ
  last_event_time : ℚ
  current_Q : ℕ
  rng_i : ℕ
deriving DecidableEq, Repr

/-- Python `min(event_list, key=lambda x: x[1])`: the leftmost element
with minimal time (`min` keeps the earlier element on ties). -/
def findMin : List (EKind × ℚ) → Option (EKind × ℚ)
  | [] => none
  | e :: es =>
    match findMin es with
    | none => some e
    | some m => if e.2 ≤ m.2 then some e else some m

/-- Python `list.remove`: delete the first occurrence of the value. -/
def removeFirst (e : EKind × ℚ) : List (EKind × ℚ) → List (EKind × ℚ)
  | [] => []
  | x :: xs => if x = e then xs else x :: removeFirst e xs

/-- `initialize_simulation` of `z___deepseek.py`: zeroed state with the
event list holding one arrival at the first interarrival draw. -/
def dInit (rng : ℕ → ℚ) : DState :=
  { clock := 0
    server_status := false
    queue := []
    event_list := [(EKind.arrival, rng 0)]
    total_arrivals := 0
    total_served := 0
    delays := []
    total_delay := 0
    Q_area := 0
    last_event_time := 0
    current_Q := 0
    rng_i := 1 }

/-- One event of `z___deepseek.py`: `timing_routine` (scan the event
list for the leftmost minimum, advance the clock, remove the event,
update `Q_area` from `current_Q`) followed by `process_arrival` or
`process_departure`.  Note that `process_arrival` also increments
`total_served` when the server is idle, and that the next arrival is
appended to the event list before any departure. -/
def dStep (rng : ℕ → ℚ) (s : DState) : DState :=
  match findMin s.event_list with
  | none => s
  | some (ek, et) =>
    let s1 : DState :=
      { s with
        clock := et
        event_list := removeFirst (ek, et) s.event_list
        Q_area := s.Q_area + (s.current_Q : ℚ) * (et - s.last_event_time)
        last_event_time := et }
    match ek with
    | EKind.arrival =>
      let s2 : DState :=
        { s1 with
          total_arrivals := s1.total_arrivals + 1
          event_list := s1.event_list ++ [(EKind.arrival, et + rng s.rng_i)]
          rng_i := s.rng_i + 1 }
      if s.server_status then
        { s2 with
          queue := s2.queue ++ [et]
          current_Q := s2.queue.length + 1 }
      else
        { s2 with
          server_status := true
          delays := s2.delays ++ [0]
          total_delay := s2.total_delay + 0
          total_served := s2.total_served + 1
          event_list := s2.event_list ++ [(EKind.departure, et + rng (s.rng_i + 1))]
          rng_i := s.rng_i + 2 }
    | EKind.departure =>
      let s2 : DState := { s1 with total_served := s1.total_served + 1 }
      match s2.queue with
      | [] =>
        { s2 with
          server_status := false
          current_Q := 0 }
      | a :: rest =>
        { s2 with
          queue := rest
          current_Q := rest.length
          delays := s2.delays ++ [et - a]
          total_delay := s2.total_delay + (et - a)
          event_list := s2.event_list ++ [(EKind.departure, et + rng s.rng_i)]
          rng_i := s.rng_i + 1 }

/-- The `z___deepseek.py` state after `n` processed events. -/
def dRun (rng : ℕ → ℚ) : ℕ → DState
  | 0 => dInit rng
  | n + 1 => dStep rng (dRun rng n)

/-- `update_metrics` of `z___deepseek.py`:
`total_delay / total_served if total_served > 0 else 0`. -/
def dAvgWait (s : DState) : ℚ :=
  if 0 < s.total_served then s.total_delay / (s.total_served : ℚ) else 0

/-- State of the `z___Perplexity.py` engine (`main`): clock, server
flag, FIFO queue, scalar next-event times (`none` for `INF`), separate
read indices into the pre-generated interarrival and service streams,
and the statistics fields. -/
structure PState : Type where
  t : ℚ
  server_busy : Bool
  q : List ℚ
  next_arrival : ℚ
  next_departure : Option ℚ
  ia_i : ℕ
  sv_i : ℕ
  arrivals : ℕ
  served : ℕ
  sum_wait : ℚ
  count_started : ℕ
  area_q : ℚ
  last_t : ℚ
deriving DecidableEq, Repr

/-- Line 108 of `z___Perplexity.py`: the arrival is selected iff
`next_arrival <= next_departure`, with `INF` for a missing departure. -/
def arrivalNextP (s : PState) : Bool :=
  match s.next_departure with
  | none => true
  | some d => decide (s.next_arrival ≤ d)

/-- Line 108 of `z___Perplexity.py`: the dispatched event and its time. -/
def selectP (s : PState) : EKind × ℚ :=
  if arrivalNextP s then (EKind.arrival, s.next_arrival)
  else (EKind.departure, s.next_departure.getD 0)

/-- Lines 21-38 of `z___Perplexity.py`: clock 0, idle server, empty
queue, first arrival at the first interarrival draw, no departure. -/
def pInit (A : ℕ → ℚ) : PState :=
  { t := 0
    server_busy := false
    q := []
    next_arrival := A 0
    next_departure := none
    ia_i := 1
    sv_i := 0
    arrivals := 0
    served := 0
    sum_wait := 0
    count_started := 0
    area_q := 0
    last_t := 0 }

/-- One iteration of the `z___Perplexity.py` DES loop body
(lines 108-150) with horizon `N`: select the next event, accumulate
`area_q`, advance the clock, dispatch; in the departure branch a wait is
recorded as `max(0.0, t - a)`, and once `served >= N` the server is
released without starting the next customer. -/
def stepP (A S : ℕ → ℚ) (N : ℕ) (s : PState) : PState :=
  if arrivalNextP s then
    if s.server_busy then
      { s with
        area_q := s.area_q + (s.q.length : ℚ) * (s.next_arrival - s.last_t)
        t := s.next_arrival
        last_t := s.next_arrival
        arrivals := s.arrivals + 1
        next_arrival := s.next_arrival + A s.ia_i
        ia_i := s.ia_i + 1
        q := s.q ++ [s.next_arrival] }
    else
      { s with
        area_q := s.area_q + (s.q.length : ℚ) * (s.next_arrival - s.last_t)
        t := s.next_arrival
        last_t := s.next_arrival
        arrivals := s.arrivals + 1
        next_arrival := s.next_arrival + A s.ia_i
        ia_i := s.ia_i + 1
        server_busy := true
        sum_wait := s.sum_wait + 0
        count_started := s.count_started + 1
        next_departure := some (s.next_arrival + S s.sv_i)
        sv_i := s.sv_i + 1 }
  else
    if N ≤ s.served + 1 then
      { s with
        area_q := s.area_q + (s.q.length : ℚ) * (s.next_departure.getD 0 - s.last_t)
        t := s.next_departure.getD 0
        last_t := s.next_departure.getD 0
        served := s.served + 1
        server_busy := false
        next_departure := none }
    else
      match s.q with
      | [] =>
        { s with
          area_q := s.area_q + (s.q.length : ℚ) * (s.next_departure.getD 0 - s.last_t)
          t := s.next_departure.getD 0
          last_t := s.next_departure.getD 0
          served := s.served + 1
          server_busy := false
          next_departure := none }
      | a :: rest =>
        { s with
          area_q := s.area_q + (s.q.length : ℚ) * (s.next_departure.getD 0 - s.last_t)
          t := s.next_departure.getD 0
          last_t := s.next_departure.getD 0
          served := s.served + 1
          q := rest
          sum_wait := s.sum_wait + max 0 (s.next_departure.getD 0 - a)
          count_started := s.count_started + 1
          next_departure := some (s.next_departure.getD 0 + S s.sv_i)
          sv_i := s.sv_i + 1
          server_busy := true }

/-- The `while served < N` loop of `z___Perplexity.py`, with explicit
fuel bounding the number of loop iterations: the condition is tested
before every event dispatch, exactly as in the source. -/
def loopP (A S : ℕ → ℚ) (N : ℕ) : ℕ → PState → PState
  | 0, s => s
  | fuel + 1, s => if s.served < N then loopP A S N fuel (stepP A S N s) else s

/-- Duration stream exhibiting a tied arrival and departure in the
`z___deepseek.py` variant: first interarrival 1, second interarrival 1,
first service 3, third interarrival 2 (all later draws 1). -/
def tieStream : ℕ → ℚ := fun i =>
  if i = 0 then 1 else if i = 1 then 1 else if i = 2 then 3 else
  if i = 3 then 2 else 1

/-- Duration stream for the `z___deepseek.py` average-wait evaluation:
interarrivals 1, 1, 98 and services 2, 1 (all later draws 1). -/
def avgStream : ℕ → ℚ := fun i =>
  if i = 0 then 1 else if i = 1 then 1 else if i = 2 then 2 else
  if i = 3 then 98 else if i = 4 then 1 else 1

section FinalLemmas

variable {rng : ℕ → ℚ} {s : SimState}

lemma run_succ (rng : ℕ → ℚ) (n : ℕ) : run rng (n + 1) = step rng (run rng n) := rfl

lemma arrivalNext_of_none (h : s.next_departure = none) : arrivalNext s = true := by
  simp [arrivalNext, h]

lemma arrivalNext_eq_false (h : arrivalNext s = false) :
    ∃ d, s.next_departure = some d ∧ d < s.next_arrival := by
  unfold arrivalNext at h
  cases hd : s.next_departure with
  | none => rw [hd] at h; exact absurd h (by simp)
  | some d =>
    refine ⟨d, rfl, ?_⟩
    rw [hd] at h
    simpa using h

lemma selectNext_of_arrival (h : arrivalNext s = true) :
    selectNext s = (EKind.arrival, s.next_arrival) := by
  simp [selectNext, h]

lemma selectNext_of_departure (h : arrivalNext s = false) :
    selectNext s = (EKind.departure, s.next_departure.getD 0) := by
  simp [selectNext, h]

lemma step_arrival_busy (rng : ℕ → ℚ) (h : arrivalNext s = true)
    (hb : s.server_busy = true) :
    step rng s =
      { s with
        area_Q := s.area_Q + (s.queue.length : ℚ) * (s.next_arrival - s.last_event_time)
        t := s.next_arrival
        last_event_time := s.next_arrival
        num_arrivals := s.num_arrivals + 1
        queue := s.queue ++ [s.next_arrival]
        next_arrival := s.next_arrival + rng s.rng_i
        rng_i := s.rng_i + 1 } := by
  simp [step, h, hb]

lemma step_arrival_idle (rng : ℕ → ℚ) (h : arrivalNext s = true)
    (hb : s.server_busy = false) :
    step rng s =
      { s with
        area_Q := s.area_Q + (s.queue.length : ℚ) * (s.next_arrival - s.last_event_time)
        t := s.next_arrival
        last_event_time := s.next_arrival
        num_arrivals := s.num_arrivals + 1
        server_busy := true
        delays := s.delays ++ [0]
        next_departure := some (s.next_arrival + rng (s.rng_i + 1))
        next_arrival := s.next_arrival + rng s.rng_i
        rng_i := s.rng_i + 2 } := by
  simp [step, h, hb]

lemma step_departure_empty (rng : ℕ → ℚ) (h : arrivalNext s = false)
    (hq : s.queue = []) :
    step rng s =
      { s with
        area_Q := s.area_Q + (s.queue.length : ℚ) *
          (s.next_departure.getD 0 - s.last_event_time)
        t := s.next_departure.getD 0
        last_event_time := s.next_departure.getD 0
        num_served := s.num_served + 1
        server_busy := false
        next_departure := none
        rng_i := s.rng_i + 1 } := by
  simp only [step, h, Bool.false_eq_true, if_false, hq]

lemma step_departure_pop (rng : ℕ → ℚ) {a : ℚ} {rest : List ℚ}
    (h : arrivalNext s = false) (hq : s.queue = a :: rest) :
    step rng s =
      { s with
        area_Q := s.area_Q + (s.queue.length : ℚ) *
          (s.next_departure.getD 0 - s.last_event_time)
        t := s.next_departure.getD 0
        last_event_time := s.next_departure.getD 0
        num_served := s.num_served + 1
        queue := rest
        delays := s.delays ++ [s.next_departure.getD 0 - a]
        next_departure := some (s.next_departure.getD 0 + rng s.rng_i)
        rng_i := s.rng_i + 1 } := by
  simp only [step, h, Bool.false_eq_true, if_false, hq]

lemma step_last_eq_t (rng : ℕ → ℚ) (s : SimState) :
    (step rng s).last_event_time = (step rng s).t := by
  unfold step
  split
  · split <;> rfl
  · split <;> rfl

lemma step_area (rng : ℕ → ℚ) (s : SimState) :
    (step rng s).area_Q =
      s.area_Q + (s.queue.length : ℚ) * ((step rng s).t - s.last_event_time) := by
  unfold step
  split
  · split <;> rfl
  · split <;> rfl

lemma step_t_eq_select (rng : ℕ → ℚ) (s : SimState) :
    (step rng s).t = (selectNext s).2 := by
  by_cases h : arrivalNext s
  · rw [selectNext_of_arrival h]
    unfold step
    simp only [h, if_true]
    split <;> rfl
  · rw [selectNext_of_departure (Bool.not_eq_true _ ▸ h)]
    unfold step
    simp only [h, Bool.false_eq_true, if_false]
    split <;> rfl

lemma run_last_eq_t (rng : ℕ → ℚ) (n : ℕ) :
    (run rng n).last_event_time = (run rng n).t := by
  cases n with
  | zero => rfl
  | succ n => exact step_last_eq_t rng (run rng n)

/-- Structural invariant of every reachable `Final.py` state: an idle
server has no scheduled departure, and the number of customers in the
system (wait line plus the in-service customer) balances the arrival
and departure counters. -/
lemma run_invariant (rng : ℕ → ℚ) (n : ℕ) :
    ((run rng n).server_busy = false → (run rng n).next_departure = none) ∧
    (run rng n).queue.length + (if (run rng n).server_busy then 1 else 0) +
        (run rng n).num_served = (run rng n).num_arrivals := by
  induction n with
  | zero => simp [run, initState]
  | succ n ih =>
    obtain ⟨ih1, ih2⟩ := ih
    rw [run_succ]
    by_cases h : arrivalNext (run rng n)
    · by_cases hb : (run rng n).server_busy
      · rw [step_arrival_busy rng h hb]
        constructor
        · intro hc
          rw [hb] at hc
          exact absurd hc (by simp)
        · simp [hb] at ih2 ⊢
          omega
      · have hb' : (run rng n).server_busy = false := Bool.not_eq_true _ ▸ hb
        rw [step_arrival_idle rng h hb']
        constructor
        · intro hc
          simp at hc
        · simp [hb'] at ih2 ⊢
          omega
    · replace h : arrivalNext (run rng n) = false := Bool.not_eq_true _ ▸ h
      obtain ⟨d, hd, _⟩ := arrivalNext_eq_false h
      have hb : (run rng n).server_busy = true := by
        cases hbs : (run rng n).server_busy with
        | false => rw [ih1 hbs] at hd; exact absurd hd (by simp)
        | true => rfl
      cases hq : (run rng n).queue with
      | nil =>
        rw [step_departure_empty rng h hq]
        constructor
        · intro _; rfl
        · simp [hb, hq] at ih2 ⊢
          omega
      | cons a rest =>
        rw [step_departure_pop rng h hq]
        constructor
        · intro hc
          rw [hb] at hc
          exact absurd hc (by simp)
        · simp [hb, hq] at ih2 ⊢
          omega

lemma arrivalNext_le {d : ℚ} (ha : arrivalNext s = true)
    (hd : s.next_departure = some d) : s.next_arrival ≤ d := by
  unfold arrivalNext at ha
  rw [hd] at ha
  simpa using ha

/-- With a nonnegative duration stream, every reachable state schedules
its pending events no earlier than the current clock. -/
lemma run_time_bounds (rng : ℕ → ℚ) (h : ∀ i, 0 ≤ rng i) (n : ℕ) :
    (run rng n).t ≤ (run rng n).next_arrival ∧
    (∀ d, (run rng n).next_departure = some d → (run rng n).t ≤ d) := by
  induction n with
  | zero =>
    constructor
    · exact h 0
    · intro d hd
      exact absurd hd (by simp [run, initState])
  | succ n ih =>
    obtain ⟨ih1, ih2⟩ := ih
    rw [run_succ]
    by_cases ha : arrivalNext (run rng n)
    · by_cases hb : (run rng n).server_busy
      · rw [step_arrival_busy rng ha hb]
        refine ⟨le_add_of_nonneg_right (h _), ?_⟩
        intro d hd
        exact arrivalNext_le ha hd
      · rw [step_arrival_idle rng ha (Bool.not_eq_true _ ▸ hb)]
        refine ⟨le_add_of_nonneg_right (h _), ?_⟩
        intro d hd
        obtain rfl : (run rng n).next_arrival + rng ((run rng n).rng_i + 1) = d :=
          Option.some_injective _ hd
        exact le_add_of_nonneg_right (h _)
    · replace ha : arrivalNext (run rng n) = false := Bool.not_eq_true _ ▸ ha
      obtain ⟨d0, hd0, hlt⟩ := arrivalNext_eq_false ha
      cases hq : (run rng n).queue with
      | nil =>
        rw [step_departure_empty rng ha hq]
        refine ⟨?_, ?_⟩
        · rw [hd0]
          exact le_of_lt hlt
        · intro d hd
          exact absurd hd (by simp)
      | cons a rest =>
        rw [step_departure_pop rng ha hq]
        refine ⟨?_, ?_⟩
        · rw [hd0]
          exact le_of_lt hlt
        · intro d hd
          obtain rfl : (run rng n).next_departure.getD 0 + rng ((run rng n).rng_i) = d :=
            Option.some_injective _ hd
          exact le_add_of_nonneg_right (h _)

lemma step_rng_i_mono (rng : ℕ → ℚ) (s : SimState) :
    s.rng_i ≤ (step rng s).rng_i := by
  unfold step
  split
  · split <;> (dsimp; omega)
  · split <;> (dsimp; omega)

lemma step_congr {rng1 rng2 : ℕ → ℚ} {s : SimState}
    (h : ∀ i, i < (step rng1 s).rng_i → rng1 i = rng2 i) :
    step rng1 s = step rng2 s := by
  by_cases ha : arrivalNext s
  · by_cases hb : s.server_busy
    · have e1 := step_arrival_busy rng1 ha hb
      have h1 : rng1 s.rng_i = rng2 s.rng_i := h _ (by rw [e1]; dsimp; omega)
      rw [e1, step_arrival_busy rng2 ha hb, h1]
    · have hb' : s.server_busy = false := Bool.not_eq_true _ ▸ hb
      have e1 := step_arrival_idle rng1 ha hb'
      have h1 : rng1 s.rng_i = rng2 s.rng_i := h _ (by rw [e1]; dsimp; omega)
      have h2 : rng1 (s.rng_i + 1) = rng2 (s.rng_i + 1) := h _ (by rw [e1]; dsimp; omega)
      rw [e1, step_arrival_idle rng2 ha hb', h1, h2]
  · replace ha : arrivalNext s = false := Bool.not_eq_true _ ▸ ha
    cases hq : s.queue with
    | nil => rw [step_departure_empty rng1 ha hq, step_departure_empty rng2 ha hq]
    | cons a rest =>
      have e1 := step_departure_pop rng1 ha hq
      have h1 : rng1 s.rng_i = rng2 s.rng_i := h _ (by rw [e1]; dsimp; omega)
      rw [e1, step_departure_pop rng2 ha hq, h1]

/-- The engine reads the duration stream only at indices below its
running index, so two streams agreeing on the consumed prefix yield
identical run states. -/
lemma run_congr {rng1 rng2 : ℕ → ℚ} :
    ∀ n, (∀ i, i < (run rng1 n).rng_i → rng1 i = rng2 i) →
      ∀ k, k ≤ n → run rng1 k = run rng2 k := by
  intro n
  induction n with
  | zero =>
    intro h k hk
    obtain rfl : k = 0 := Nat.le_zero.mp hk
    have h0 : rng1 0 = rng2 0 := h 0 (by simp [run, initState])
    simp [run, initState, h0]
  | succ n ih =>
    intro h k hk
    have hmono : (run rng1 n).rng_i ≤ (run rng1 (n + 1)).rng_i :=
      step_rng_i_mono rng1 (run rng1 n)
    have hn : ∀ i, i < (run rng1 n).rng_i → rng1 i = rng2 i :=
      fun i hi => h i (lt_of_lt_of_le hi hmono)
    rcases Nat.lt_or_ge k (n + 1) with hk' | hk'
    · exact ih hn k (Nat.lt_succ_iff.mp hk')
    · obtain rfl : k = n + 1 := le_antisymm hk hk'
      have hrn : run rng1 n = run rng2 n := ih hn n le_rfl
      rw [run_succ, run_succ, ← hrn]
      exact step_congr h

lemma eventTrace_congr {rng1 rng2 : ℕ → ℚ} {n : ℕ}
    (h : ∀ k, k ≤ n → run rng1 k = run rng2 k) :
    eventTrace rng1 n = eventTrace rng2 n := by
  induction n with
  | zero => rfl
  | succ n ih =>
    simp only [eventTrace]
    rw [ih (fun k hk => h k (le_trans hk (Nat.le_succ n))), h n (Nat.le_succ n)]

end FinalLemmas

section PerplexityLemmas

lemma stepP_served_le (A S : ℕ → ℚ) (N : ℕ) (s : PState) :
    (stepP A S N s).served ≤ s.served + 1 := by
  unfold stepP
  split
  · split <;> (dsimp; omega)
  · split
    · dsimp; omega
    · split <;> (dsimp; omega)

lemma loopP_of_horizon_reached {A S : ℕ → ℚ} {N : ℕ} {s : PState}
    (hN : N ≤ s.served) : ∀ fuel, loopP A S N fuel s = s := by
  intro fuel
  cases fuel with
  | zero => rfl
  | succ fuel =>
    unfold loopP
    rw [if_neg (by omega)]

lemma loopP_served_le (A S : ℕ → ℚ) (N : ℕ) :
    ∀ fuel (s : PState), s.served ≤ N → (loopP A S N fuel s).served ≤ N := by
  intro fuel
  induction fuel with
  | zero => intro s hs; exact hs
  | succ fuel ih =>
    intro s hs
    unfold loopP
    by_cases hlt : s.served < N
    · rw [if_pos hlt]
      exact ih _ (by have := stepP_served_le A S N s; omega)
    · rw [if_neg hlt]
      exact hs

end PerplexityLemmas

/-- Constant duration stream used as a concrete witness input. -/
def oneStream : ℕ → ℚ := fun _ => 1

/-- A stream agreeing with `oneStream` on the first three draws (the
prefix consumed by one loop iteration) and differing afterwards. -/
def oneStreamLater : ℕ → ℚ := fun i => if i < 3 then 1 else 5

/-- A state of the `Final.py` loop in which a pending arrival and a
pending departure are tied at time 1 while the server is busy. -/
def tieState : SimState :=
  { t := 0, queue := [], server_busy := true, next_arrival := 1,
    next_departure := some 1, num_arrivals := 1, num_served := 0,
    delays := [0], area_Q := 0, last_event_time := 0, rng_i := 3 }

/-- A state of the `Final.py` loop whose queued head arrival timestamp 5
exceeds the pending departure time 3, so that the computed wait is the
negative value `3 - 5`. -/
def negWaitState : SimState :=
  { t := 3, queue := [5], server_busy := true, next_arrival := 10,
    next_departure := some 3, num_arrivals := 2, num_served := 0,
    delays := [], area_Q := 0, last_event_time := 3, rng_i := 0 }

/-- The analogous state for the `z___Perplexity.py` loop. -/
def negWaitStateP : PState :=
  { t := 3, server_busy := true, q := [5], next_arrival := 10,
    next_departure := some 3, ia_i := 1, sv_i := 1, arrivals := 2,
    served := 0, sum_wait := 0, count_started := 1, area_q := 0,
    last_t := 3 }

/-- A `z___Perplexity.py` state whose `served` counter already exceeds
the horizon, used to witness that the loop dispatches nothing. -/
def doneStateP : PState :=
  { t := 7, server_busy := false, q := [], next_arrival := 9,
    next_departure := none, ia_i := 4, sv_i := 3, arrivals := 3,
    served := 3, sum_wait := 0, count_started := 3, area_q := 0,
    last_t := 7 }

/-- C1: for every duration stream and every number of processed events,
the incrementally accumulated `area_Q` equals the exact time integral of
the wait-line-length step function reconstructed from the event history,
each interval weighted by the pre-event queue length. -/
theorem area_Q_eq_integralQ (rng : ℕ → ℚ) (n : ℕ) :
    (run rng n).area_Q = integralQ rng n := by
  induction n with
  | zero => rfl
  | succ n ih =>
    have h := step_area rng (run rng n)
    show (step rng (run rng n)).area_Q = integralQ rng (n + 1)
    rw [h, run_last_eq_t rng n, ih]
    rfl

/-- C2: in every reachable state of the `Final.py` loop, the wait-line
length plus one for a busy server equals the number of processed
arrivals minus the number of processed departures. -/
theorem in_system_eq_arrivals_sub_served (rng : ℕ → ℚ) (n : ℕ) :
    ((run rng n).queue.length : ℤ) +
        (if (run rng n).server_busy then 1 else 0) =
      ((run rng n).num_arrivals : ℤ) - ((run rng n).num_served : ℤ) := by
  have h := (run_invariant rng n).2
  by_cases hb : (run rng n).server_busy <;> simp [hb] at h ⊢ <;> omega

/-- C3 (counterexample, `z___deepseek.py`): after two events of the
`tieStream` run, an arrival and a departure are both pending at time 4,
yet `timing_routine` dispatches the departure first (ties are broken by
event-list position, and the departure sits earlier in the list); the
next step therefore moves the queued customer into service with a
positive recorded wait instead of letting the tied arrival join the
queue first. -/
theorem deepseek_tie_departure_first :
    (EKind.arrival, (4 : ℚ)) ∈ (dRun tieStream 2).event_list ∧
    (EKind.departure, (4 : ℚ)) ∈ (dRun tieStream 2).event_list ∧
    findMin (dRun tieStream 2).event_list = some (EKind.departure, 4) ∧
    (dRun tieStream 3).queue = [] ∧
    (dRun tieStream 3).delays = [0, 2] := by
  norm_num [dRun, dStep, dInit, findMin, removeFirst, tieStream]

/-- C3 (amended): in the `Final.py` engine, whenever the pending
arrival and the pending departure are tied and the server is busy, the
arrival is dispatched first and the arriving customer joins the tail of
the wait line; no departure is processed in that iteration. -/
theorem tie_arrival_dispatched_first (rng : ℕ → ℚ) (s : SimState) (d : ℚ)
    (hnd : s.next_departure = some d) (hna : s.next_arrival = d)
    (hb : s.server_busy = true) :
    selectNext s = (EKind.arrival, d) ∧
    (step rng s).queue = s.queue ++ [d] ∧
    (step rng s).num_arrivals = s.num_arrivals + 1 ∧
    (step rng s).num_served = s.num_served := by
  have ha : arrivalNext s = true := by simp [arrivalNext, hnd, hna]
  rw [step_arrival_busy rng ha hb]
  exact ⟨by rw [selectNext_of_arrival ha, hna], by rw [hna], rfl, rfl⟩

theorem tie_arrival_dispatched_first_witness :
    tieState.next_departure = some 1 ∧ tieState.next_arrival = 1 ∧
    tieState.server_busy = true ∧
    (selectNext tieState = (EKind.arrival, 1) ∧
      (step oneStream tieState).queue = tieState.queue ++ [1] ∧
      (step oneStream tieState).num_arrivals = tieState.num_arrivals + 1 ∧
      (step oneStream tieState).num_served = tieState.num_served) :=
  ⟨rfl, rfl, rfl, tie_arrival_dispatched_first oneStream tieState 1 rfl rfl rfl⟩

/-- C4 (counterexample): at a state whose queued head arrival timestamp
exceeds the pending departure time, the `Final.py` departure branch
silently records the negative wait `3 - 5` and keeps running (there is
no fatal abort anywhere in the engine), while the `z___Perplexity.py`
departure branch records `max(0, 3 - 5) = 0`, clamping the wait instead
of recording `clock - a`. -/
theorem negative_wait_silent_cex :
    (step oneStream negWaitState).delays = [3 - 5] ∧ ((3 : ℚ) - 5 < 0) ∧
    (step oneStream negWaitState).num_served = 1 ∧
    (stepP oneStream oneStream 100 negWaitStateP).sum_wait = 0 ∧
    ((0 : ℚ) ≠ 3 - 5) := by
  norm_num [step, stepP, arrivalNext, arrivalNextP, negWaitState, negWaitStateP,
    oneStream]

/-- C4 (amended): when the departure handler pops the head arrival
timestamp from a non-empty wait line, the `Final.py` engine records
exactly `clock - a` with no adjustment of any kind, while the
`z___Perplexity.py` engine records `max(0, clock - a)`; neither engine
checks for, or aborts on, a negative computed wait. -/
theorem recorded_wait_final_exact_perplexity_clamped (rng A S : ℕ → ℚ)
    (N : ℕ) (s : SimState) (p : PState) (a : ℚ) (rest : List ℚ) (b : ℚ)
    (brest : List ℚ) (hs : arrivalNext s = false) (hq : s.queue = a :: rest)
    (hp : arrivalNextP p = false) (hpq : p.q = b :: brest)
    (hpN : p.served + 1 < N) :
    (step rng s).delays = s.delays ++ [s.next_departure.getD 0 - a] ∧
    (stepP A S N p).sum_wait =
      p.sum_wait + max 0 (p.next_departure.getD 0 - b) := by
  constructor
  · rw [step_departure_pop rng hs hq]
  · unfold stepP
    rw [if_neg (by simp [hp]), if_neg (by omega), hpq]

theorem recorded_wait_final_exact_perplexity_clamped_witness :
    arrivalNext negWaitState = false ∧ negWaitState.queue = [5] ∧
    arrivalNextP negWaitStateP = false ∧ negWaitStateP.q = [5] ∧
    negWaitStateP.served + 1 < 100 ∧
    ((step oneStream negWaitState).delays =
        negWaitState.delays ++ [negWaitState.next_departure.getD 0 - 5] ∧
      (stepP oneStream oneStream 100 negWaitStateP).sum_wait =
        negWaitStateP.sum_wait +
          max 0 (negWaitStateP.next_departure.getD 0 - 5)) :=
  ⟨by norm_num [arrivalNext, negWaitState], rfl,
    by norm_num [arrivalNextP, negWaitStateP], rfl, by norm_num [negWaitStateP],
    recorded_wait_final_exact_perplexity_clamped oneStream oneStream oneStream
      100 negWaitState negWaitStateP 5 [] 5 []
      (by norm_num [arrivalNext, negWaitState]) rfl
      (by norm_num [arrivalNextP, negWaitStateP]) rfl
      (by norm_num [negWaitStateP])⟩

/-- C5 (evaluation at the failing input): in the `z___deepseek.py`
variant, after the four events arrival, arrival, departure, departure
(interarrivals 1, 1, 98; services 2, 1), two customers have begun
service with total wait 1, yet `update_metrics` reports
`total_delay / total_served = 1/3` because `total_served` was
incremented both at the idle arrival and at every departure; the
reported average differs from `total_wait / n_started = 1/2`. -/
theorem deepseek_avg_wait_denominator_eval :
    dAvgWait (dRun avgStream 4) = 1 / 3 ∧
    (dRun avgStream 4).delays.length = 2 ∧
    (dRun avgStream 4).total_delay = 1 ∧
    (dRun avgStream 4).total_served = 3 ∧
    dAvgWait (dRun avgStream 4) ≠
      (dRun avgStream 4).total_delay /
        ((dRun avgStream 4).delays.length : ℚ) := by
  norm_num [dRun, dStep, dInit, dAvgWait, findMin, removeFirst, avgStream]

/-- C6: with a nonnegative duration stream, the `Final.py` clock never
decreases across an iteration, and after each iteration it equals the
time of the event just dispatched. -/
theorem clock_monotone_eq_event_time (rng : ℕ → ℚ) (h : ∀ i, 0 ≤ rng i)
    (n : ℕ) :
    (run rng n).t ≤ (run rng (n + 1)).t ∧
    (run rng (n + 1)).t = (selectNext (run rng n)).2 := by
  have h2 : (run rng (n + 1)).t = (selectNext (run rng n)).2 :=
    step_t_eq_select rng (run rng n)
  refine ⟨?_, h2⟩
  rw [h2]
  by_cases ha : arrivalNext (run rng n)
  · rw [selectNext_of_arrival ha]
    exact (run_time_bounds rng h n).1
  · replace ha : arrivalNext (run rng n) = false := Bool.not_eq_true _ ▸ ha
    obtain ⟨d, hd, _⟩ := arrivalNext_eq_false ha
    rw [selectNext_of_departure ha]
    simpa [hd] using (run_time_bounds rng h n).2 d hd

theorem clock_monotone_eq_event_time_witness :
    (0 : ℚ) ≤ oneStream 5 ∧
    ((run oneStream 1).t ≤ (run oneStream 2).t ∧
      (run oneStream 2).t = (selectNext (run oneStream 1)).2) :=
  ⟨by norm_num [oneStream],
    clock_monotone_eq_event_time oneStream (fun i => by norm_num [oneStream]) 1⟩

/-- C7: in every reachable state of the `Final.py` loop, an idle server
has no scheduled departure — the sentinel `next_departure` is the
infinite value, modelled as `none` — and in any state with that
sentinel the comparison of line 96 selects the arrival, whose finite
time always beats the sentinel. -/
theorem idle_no_departure_sentinel (rng : ℕ → ℚ) (n : ℕ) (s : SimState)
    (h : (run rng n).server_busy = false) (hs : s.next_departure = none) :
    (run rng n).next_departure = none ∧
    arrivalNext s = true ∧
    selectNext s = (EKind.arrival, s.next_arrival) := by
  have h1 := (run_invariant rng n).1 h
  have h2 := arrivalNext_of_none hs
  exact ⟨h1, h2, selectNext_of_arrival h2⟩

theorem idle_no_departure_sentinel_witness :
    (run oneStream 0).server_busy = false ∧
    (initState oneStream).next_departure = none ∧
    ((run oneStream 0).next_departure = none ∧
      arrivalNext (initState oneStream) = true ∧
      selectNext (initState oneStream) =
        (EKind.arrival, (initState oneStream).next_arrival)) :=
  ⟨rfl, rfl, idle_no_departure_sentinel oneStream 0 (initState oneStream) rfl rfl⟩

/-- C8: the engine is a deterministic function of the duration stream
and the iteration count — two runs whose streams agree on the consumed
prefix produce identical `(event time, event kind)` sequences and
identical reported average waiting time and time-average queue length. -/
theorem run_deterministic_in_streams (rng1 rng2 : ℕ → ℚ) (n : ℕ)
    (h : ∀ i, i < (run rng1 n).rng_i → rng1 i = rng2 i) :
    eventTrace rng1 n = eventTrace rng2 n ∧
    avgWait (run rng1 n) = avgWait (run rng2 n) ∧
    timeAvgQ (run rng1 n) = timeAvgQ (run rng2 n) := by
  have hrun := run_congr n h
  refine ⟨eventTrace_congr hrun, ?_, ?_⟩
  · rw [hrun n le_rfl]
  · rw [hrun n le_rfl]

theorem run_deterministic_in_streams_witness :
    (∀ i, i < 3 → oneStream i = oneStreamLater i) ∧
    (eventTrace oneStream 1 = eventTrace oneStreamLater 1 ∧
      avgWait (run oneStream 1) = avgWait (run oneStreamLater 1) ∧
      timeAvgQ (run oneStream 1) = timeAvgQ (run oneStreamLater 1)) := by
  have hc : (run oneStream 1).rng_i = 3 := by
    norm_num [run, step, initState, arrivalNext, oneStream]
  have hb : ∀ i, i < 3 → oneStream i = oneStreamLater i := by decide
  exact ⟨hb, run_deterministic_in_streams oneStream oneStreamLater 1
    (fun i hi => hb i (hc ▸ hi))⟩

/-- C9: in the `z___Perplexity.py` loop, once `served` has reached the
configured horizon `N` the loop dispatches no further event no matter
how much fuel remains, and a run started at or below the horizon never
pushes `served` beyond `N`. -/
theorem horizon_stops_loop (A S : ℕ → ℚ) (N fuel : ℕ) (s : PState) :
    (N ≤ s.served → loopP A S N fuel s = s) ∧
    (s.served ≤ N → (loopP A S N fuel s).served ≤ N) := by
  constructor
  · intro hN
    exact loopP_of_horizon_reached hN fuel
  · intro hN
    exact loopP_served_le A S N fuel s hN

theorem horizon_stops_loop_witness :
    ((2 : ℕ) ≤ doneStateP.served ∧
      loopP oneStream oneStream 2 5 doneStateP = doneStateP) ∧
    ((pInit oneStream).served ≤ 2 ∧
      (loopP oneStream oneStream 2 5 (pInit oneStream)).served ≤ 2) :=
  ⟨⟨by norm_num [doneStateP],
      (horizon_stops_loop oneStream oneStream 2 5 doneStateP).1
        (by norm_num [doneStateP])⟩,
    ⟨by norm_num [pInit],
      (horizon_stops_loop oneStream oneStream 2 5 (pInit oneStream)).2
        (by norm_num [pInit])⟩⟩

/-- C10: every run starts with clock 0, an idle server, an empty wait
line, one scheduled arrival and no scheduled departure, and the first
event selected by the loop — in `Final.py` and in `z___Perplexity.py`
alike — is the arrival, never a departure. -/
theorem first_event_is_arrival (rng A : ℕ → ℚ) :
    selectNext (run rng 0) = (EKind.arrival, rng 0) ∧
    selectP (pInit A) = (EKind.arrival, A 0) ∧
    (run rng 0).server_busy = false ∧
    (run rng 0).queue = [] ∧
    (run rng 0).next_departure = none ∧
    (run rng 0).t = 0 :=
  ⟨rfl, rfl, rfl, rfl, rfl, rfl⟩

